import Mathlib

/-!
Shallow embedding of the resumable reverse-chronological crawl engine of
`文章數量統計.py` (class `PTTCrawler`).

Modelling conventions:
* Calendar dates are `Nat` (larger = later); the crawler only compares dates
  for equality, and the monotonicity hypotheses of the theorems use `≤`.
* A remote fetch that fails on every retry attempt is `none`; a successful
  fetch of the post at an index yields `some` of its parsed date
  (`post.get('date')` + `strptime(...).date()`).
* The openpyxl worksheet is modelled by its list of appended data rows
  (`sheet`, in memory) and the durably saved copy (`file`); the header row is
  implicit.  `workbook.save` saves the whole in-memory sheet, so a successful
  save publishes every row appended so far, including rows whose own save
  attempt failed earlier.
* Exceptions are `Except`; the error payload carries the state at raise time,
  because Python mutations performed before a raise survive it.
* An `Env` records the outcome of every external interaction: whether the
  progress file exists and its rows, whether login / newest-index lookup
  succeed after retries, the per-index fetch outcomes, which save attempts
  fail, and whether logout succeeds.
-/

namespace PttCrawl

/-- One persisted row of the tally table: date, per-day article count, and
the earliest (smallest) article index recorded for that day. -/
structure TallyRow where
  rdate : Nat
  rcount : Nat
  ridx : Nat
deriving DecidableEq, Repr

/-- Observable events of one `crawl` run, in order: the login attempt, the
newest-index lookup, each per-post fetch attempt (`retry_operation` call at an
index), each durable-save attempt with its outcome, and the final logout
attempt with its outcome. -/
inductive Ev where
  | login : Ev
  | fetchNewest : Ev
  | fetchPost : Nat → Ev
  | save : TallyRow → Bool → Ev
  | logout : Bool → Ev
deriving DecidableEq, Repr

/-- In-flight state of `PTTCrawler.crawl`: the active day (`current_date`),
the in-memory per-day counter dict (`daily_count`, here `dc`), the in-memory
sheet rows, the durably saved rows (`file`), the number of save attempts so
far, and the event trace. -/
structure CState where
  current_date : Option Nat
  dc : Nat → Option Nat
  sheet : List TallyRow
  file : List TallyRow
  saves : Nat
  trace : List Ev

/-- One data row of an existing progress file, as read by
`iter_rows(min_row=2)`.  `dateCell = some d` is a nonempty well-formed date
string denoting day `d` (truthy); `none` is an empty/missing cell (falsy).
`indexCell = some n` is the integer `n` (truthy iff `n ≠ 0`). -/
structure FileRow where
  dateCell : Option Nat
  countCell : Option Nat
  indexCell : Option Nat
deriving DecidableEq, Repr

/-- Environment of one run: every answer the outside world gives the
crawler. -/
structure Env where
  fileExists : Bool
  fileRows : List FileRow
  loginOk : Bool
  newestOk : Bool
  newestIndex : Nat
  fetch : Nat → Option Nat
  saveFails : Nat → Bool
  logoutOk : Bool

/-- Result of one `crawl` run: whether it completed normally (`true`) or
re-raised an exception (`false`), the durably appended rows, the in-memory
sheet rows, and the event trace. -/
structure CrawlResult where
  outcome : Bool
  appended : List TallyRow
  sheetRows : List TallyRow
  trace : List Ev
deriving DecidableEq, Repr

/-- The `(row[0], row[2])` pairs kept by `load_progress`: rows whose date
cell and index cell are both truthy (`if row[0] and row[2]`). -/
def validPairs (rows : List FileRow) : List (Nat × Nat) :=
  rows.filterMap (fun r =>
    match r.dateCell, r.indexCell with
    | some d, some n => if n = 0 then none else some (d, n)
    | _, _ => none)

/-- Model of `PTTCrawler.load_progress`.  Returns the resumption cursor
`(start_date, start_index)` and the data rows of the (possibly freshly
created) progress file.  If the file does not exist a header-only file is
created (data rows `[]`) and the cursor is empty; otherwise the cursor comes
from the last valid row, with `start_index = earliest_index - 1`. -/
def load_progress (fileExists : Bool) (rows : List FileRow) :
    (Option Nat × Option Nat) × List FileRow :=
  if fileExists then
    match (validPairs rows).getLast? with
    | some (d, n) => ((some d, some (n - 1)), rows)
    | none => ((none, none), rows)
  else ((none, none), [])

/-- The cursor's `start_index` for a run in environment `e`. -/
def resumeIndex (e : Env) : Option Nat :=
  (load_progress e.fileExists e.fileRows).1.2

/-- Line 106, `index = self.start_index or latest_index`: Python `or`
takes `latest_index` when `start_index` is `None` **or** `0` (falsy). -/
def startIndex (e : Env) : Nat :=
  match resumeIndex e with
  | some n => if n = 0 then e.newestIndex else n
  | none => e.newestIndex

/-- Model of `PTTCrawler.save_daily_count`: appends the row to the in-memory sheet,
then `workbook.save`.  On a failing save the sheet keeps the row but the
durable file is unchanged and the exception propagates (error payload =
state at raise time). -/
def save_daily_count (sf : Nat → Bool) (s : CState) (d c i : Nat) :
    Except CState CState :=
  let ok := !(sf s.saves)
  let s1 : CState :=
    { s with sheet := s.sheet ++ [⟨d, c, i⟩], saves := s.saves + 1,
             trace := s.trace ++ [Ev.save ⟨d, c, i⟩ ok] }
  if sf s.saves then Except.error s1 else Except.ok { s1 with file := s1.sheet }

/-- Body of the per-index `try` block after a successful fetch, lines
122-131.  `cd` is `current_date` after the `if current_date is None` fixup,
`pd` the parsed post date, `i` the current index.  All exceptions of the
flush (including the unreachable missing-dict-entry lookup) are caught by the
enclosing per-index handler, so this function is total: the error branch of
`save_daily_count` returns the mutated state and continues. -/
def stepPost (sf : Nat → Bool) (s : CState) (cd pd i : Nat) : CState :=
  if pd = cd then
    { s with dc := fun x => if x = pd then some ((s.dc pd).getD 0 + 1) else s.dc x }
  else
    match s.dc cd with
    | none => s
    | some c =>
      match save_daily_count sf s cd c (i + 1) with
      | Except.error s2 => s2
      | Except.ok s2 =>
        { s2 with current_date := some pd,
                  dc := fun x => if x = pd then some 1 else s2.dc x }

/-- One iteration of the `while current_index > 0` loop at index `i`
(without the trailing decrement): attempt the fetch; on retry exhaustion log
and continue; on success run `stepPost`. -/
def stepCore (fetch : Nat → Option Nat) (sf : Nat → Bool) (s : CState) (i : Nat) :
    CState :=
  match fetch i with
  | none => s
  | some pd =>
    stepPost sf { s with current_date := some (s.current_date.getD pd) }
      (s.current_date.getD pd) pd i

/-- One loop iteration at index `i`, recording the fetch attempt. -/
def stepAt (fetch : Nat → Option Nat) (sf : Nat → Bool) (s : CState) (i : Nat) :
    CState :=
  stepCore fetch sf { s with trace := s.trace ++ [Ev.fetchPost i] } i

/-- The traversal loop: starting from index `i`, process `i, i-1, ..., 1`
and stop when the index reaches 0. -/
def runLoop (fetch : Nat → Option Nat) (sf : Nat → Bool) : CState → Nat → CState
  | s, 0 => s
  | s, i + 1 => runLoop fetch sf (stepAt fetch sf s (i + 1)) i

/-- Lines 139-140: the final flush once the index has reached 0.  If a day
is still active its tally is appended with `earliest_index = 0 + 1 = 1`; a
failure here is **not** caught by any inner handler and propagates. -/
def finishCrawl (sf : Nat → Bool) (s : CState) : Except CState CState :=
  match s.current_date with
  | none => Except.ok s
  | some cd =>
    match s.dc cd with
    | none => Except.error s
    | some c => save_daily_count sf s cd c 1

/-- The state carried by either branch of an `Except CState CState`. -/
def exState : Except CState CState → CState
  | Except.ok s => s
  | Except.error s => s

/-- Whether an `Except` result is the success branch. -/
def isOkB : Except CState CState → Bool
  | Except.ok _ => true
  | Except.error _ => false

/-- Loop state at entry of the traversal: no active day, empty dict, no rows
appended yet; login and newest-index lookup already happened. -/
def initState : CState :=
  { current_date := none, dc := fun _ => none, sheet := [], file := [],
    saves := 0, trace := [Ev.login, Ev.fetchNewest] }

/-- Model of `PTTCrawler.crawl`.  Login failure and newest-index failure (after
retries) abort before the loop; otherwise the loop runs from `startIndex`
down to 1, the final flush runs, and its failure is the only uncaught one.
The `finally` block always attempts exactly one logout and swallows its
failure. -/
def crawl (e : Env) : CrawlResult :=
  if e.loginOk = false then
    { outcome := false, appended := [], sheetRows := [],
      trace := [Ev.login, Ev.logout e.logoutOk] }
  else if e.newestOk = false then
    { outcome := false, appended := [], sheetRows := [],
      trace := [Ev.login, Ev.fetchNewest, Ev.logout e.logoutOk] }
  else
    let r := finishCrawl e.saveFails
      (runLoop e.fetch e.saveFails initState (startIndex e))
    { outcome := isOkB r, appended := (exState r).file,
      sheetRows := (exState r).sheet,
      trace := (exState r).trace ++ [Ev.logout e.logoutOk] }

/-- Model of `PTTCrawler.retry_operation`, with the operation given per attempt
number.  Returns the Python control-flow outcome (`some (.ok a)` = returned
`a`, `some (.error err)` = re-raised `err`, `none` = the `for` loop fell
through, which happens only for `max_retries = 0`) together with the number
of times the operation was invoked. -/
def retryAux {E A : Type} (op : Nat → Except E A) (maxR : Nat) :
    Nat → Nat → Option (Except E A) × Nat
  | _, 0 => (none, 0)
  | attempt, fuel + 1 =>
    match op attempt with
    | Except.ok a => (some (Except.ok a), 1)
    | Except.error err =>
      if attempt = maxR - 1 then (some (Except.error err), 1)
      else
        let r := retryAux op maxR (attempt + 1) fuel
        (r.1, r.2 + 1)

/-- The wrapper `retry_operation` proper: `for attempt in range(max_retries)`. -/
def retry_operation {E A : Type} (op : Nat → Except E A) (maxR : Nat) :
    Option (Except E A) × Nat :=
  retryAux op maxR 0 maxR

/-- Indices of the per-post fetch attempts in a trace. -/
def fetches (t : List Ev) : List Nat :=
  t.filterMap (fun ev => match ev with | Ev.fetchPost i => some i | _ => none)

/-- Recognizer for logout events. -/
def isLogout : Ev → Bool
  | Ev.logout _ => true
  | _ => false

/-- The list `[n, n-1, ..., 1]`: the index sequence the loop visits from start `n`. -/
def descSeq : Nat → List Nat
  | 0 => []
  | n + 1 => (n + 1) :: descSeq n

/-- Number of indices in `[1, s]` whose fetch succeeds with date `d`. -/
def succCount (f : Nat → Option Nat) (d : Nat) : Nat → Nat
  | 0 => 0
  | s + 1 => (if f (s + 1) = some d then 1 else 0) + succCount f d s

/-- Number of indices in `[j, j+fuel-1]` mapped to date `d`. -/
def cntBetween (dmap : Nat → Nat) (d : Nat) : Nat → Nat → Nat
  | _, 0 => 0
  | j, fuel + 1 => (if dmap j = d then 1 else 0) + cntBetween dmap d (j + 1) fuel

/-- Number of indices in `[j, n]` mapped to date `d`. -/
def cntFrom (dmap : Nat → Nat) (n d j : Nat) : Nat :=
  cntBetween dmap d j (n + 1 - j)

/-- First index in `[j, j+fuel-1]` mapped to date `d`, if any. -/
def firstIdxFrom (dmap : Nat → Nat) (d : Nat) : Nat → Nat → Option Nat
  | _, 0 => none
  | j, fuel + 1 =>
    if dmap j = d then some j else firstIdxFrom dmap d (j + 1) fuel

/-- The minimum index in `[1, n]` mapped to date `d` (0 if there is none):
the first hit of the ascending scan. -/
def minIdx (dmap : Nat → Nat) (n d : Nat) : Nat :=
  (firstIdxFrom dmap d 1 n).getD 0

/-- Total persisted count for date `d` over a list of rows. -/
def sumCount (rows : List TallyRow) (d : Nat) : Nat :=
  ((rows.filter (fun r => r.rdate = d)).map (fun r => r.rcount)).sum

/-- The in-memory tally the active day contributes for date `d`. -/
def activeTerm (s : CState) (d : Nat) : Nat :=
  match s.current_date with
  | none => 0
  | some a => if a = d then (s.dc a).getD 0 else 0

/-- Loop-state sanity: durable file and sheet agree (no save has failed so
far), the dict is empty before the first success, and the active day always
has a dict entry. -/
def GoodState (s : CState) : Prop :=
  s.file = s.sheet ∧
  (s.current_date = none → ∀ d, s.dc d = none) ∧
  (∀ a, s.current_date = some a → (s.dc a).isSome = true)

/-- Loop invariant of a fresh fully-successful run over a date-monotone
archive `dmap` with newest index `N`: after the loop has processed indices
`N, ..., i+1` (and is about to process `i`), the sheet and file agree; at
`i = N` nothing has happened yet; at `i < N` the active day is the date of
the last processed index `i+1`, the dict holds the full `[i+1, N]` tally of
every date seen, and the file holds exactly one row per *completed* date
(every date of `[i+1, N]` other than the active one) carrying its full tally
and its minimum index. -/
def Inv1 (dmap : Nat → Nat) (N i : Nat) (s : CState) : Prop :=
  s.file = s.sheet ∧
  (i = N → s.current_date = none ∧ (∀ d, s.dc d = none) ∧ s.file = []) ∧
  (i < N →
    s.current_date = some (dmap (i + 1)) ∧
    (∀ d, s.dc d = if 0 < cntFrom dmap N d (i + 1)
       then some (cntFrom dmap N d (i + 1)) else none) ∧
    (∀ d, s.file.filter (fun r => r.rdate = d) =
      if d ≠ dmap (i + 1) ∧ 0 < cntFrom dmap N d (i + 1)
      then [⟨d, cntFrom dmap N d (i + 1), minIdx dmap N d⟩] else []))

/-- The environment `e` with the fetch at index `k` failing (all retries
exhausted) and every other fetch as in `e`. -/
def failAt (e : Env) (k : Nat) : Env :=
  { e with fetch := fun i => if i = k then none else e.fetch i }

/-- Synthetic archive with a day boundary between indices 3 and 2 whose
boundary-flush save (the first save of the run) fails durably. -/
def envMidSaveFail : Env :=
  { fileExists := false, fileRows := [], loginOk := true, newestOk := true,
    newestIndex := 3,
    fetch := fun i =>
      if i = 3 then some 1 else if i = 2 then some 0 else
      if i = 1 then some 0 else none,
    saveFails := fun n => n == 0, logoutOk := true }

/-- Environment whose progress file's last row has `earliest_index = 1`,
hence a resumption cursor of `start_index = 0`. -/
def envResumeZero : Env :=
  { fileExists := true, fileRows := [⟨some 7, some 4, some 1⟩],
    loginOk := true, newestOk := true, newestIndex := 2,
    fetch := fun _ => none, saveFails := fun _ => false, logoutOk := true }

/-- Environment whose progress file's last valid row has
`earliest_index = 6`, hence a cursor with `resume_index = 5`. -/
def envResumeFive : Env :=
  { fileExists := true, fileRows := [⟨some 3, some 1, some 6⟩],
    loginOk := true, newestOk := true, newestIndex := 9,
    fetch := fun _ => none, saveFails := fun _ => false, logoutOk := true }

/-- The spec's concrete retry scenario: fails on attempts 0 and 1, succeeds
on attempt 2. -/
def opTwiceFail : Nat → Except Nat Nat :=
  fun att => if att < 2 then Except.error att else Except.ok 42

/-- A progress file whose first data row is invalid (index cell 0, falsy)
and whose last valid row is `(date 5, earliest_index 3)`. -/
def rowsLoad : List FileRow :=
  [⟨some 9, none, some 0⟩, ⟨some 5, some 2, some 3⟩]

/-- Witness state for the flush-content theorems: active day 5 with
in-memory count 2, empty sheet. -/
def stateActive5 : CState :=
  { current_date := some 5, dc := fun x => if x = 5 then some 2 else none,
    sheet := [], file := [], saves := 0, trace := [] }

/-- Witness state/environment for `save_failure_policy`: every save fails;
the boundary step at index 7 leaves the durable file and active day
untouched. -/
def envAllSaveFail : Env :=
  { fileExists := false, fileRows := [], loginOk := true, newestOk := true,
    newestIndex := 0, fetch := fun _ => some 4, saveFails := fun _ => true,
    logoutOk := true }

/-- The synthetic archive of the C1/C4 witnesses: indices 3, 2, 1 carry
dates 7, 5, 5. -/
def dmapW : Nat → Nat := fun i => if i ≤ 2 then 5 else 7

/-- Environment realizing `dmapW` with every external interaction
succeeding. -/
def envHist : Env :=
  { fileExists := false, fileRows := [], loginOk := true, newestOk := true,
    newestIndex := 3,
    fetch := fun i =>
      if i = 3 then some 7 else if i = 2 then some 5 else
      if i = 1 then some 5 else none,
    saveFails := fun _ => false, logoutOk := true }

/-- Environment where every per-post fetch fails after retries. -/
def envNoSucc : Env :=
  { fileExists := false, fileRows := [], loginOk := true, newestOk := true,
    newestIndex := 2, fetch := fun _ => none, saveFails := fun _ => false,
    logoutOk := true }

lemma fetches_append (t u : List Ev) :
    fetches (t ++ u) = fetches t ++ fetches u := by
  simp [fetches]

lemma stepPost_trace (sf : Nat → Bool) (s : CState) (cd pd i : Nat) :
    ∃ u, (stepPost sf s cd pd i).trace = s.trace ++ u ∧
      fetches u = [] ∧ u.countP isLogout = 0 := by
  unfold stepPost save_daily_count
  by_cases h : pd = cd
  · exact ⟨[], by simp [h], rfl, rfl⟩
  · simp only [if_neg h]
    cases hdc : s.dc cd with
    | none => exact ⟨[], by simp, rfl, rfl⟩
    | some c =>
      by_cases hs : sf s.saves
      · exact ⟨[Ev.save ⟨cd, c, i + 1⟩ (!(sf s.saves))], by simp [hs], rfl,
          by simp [isLogout]⟩
      · exact ⟨[Ev.save ⟨cd, c, i + 1⟩ (!(sf s.saves))], by simp [hs], rfl,
          by simp [isLogout]⟩

lemma stepAt_trace (fetch : Nat → Option Nat) (sf : Nat → Bool) (s : CState)
    (i : Nat) :
    ∃ u, (stepAt fetch sf s i).trace = s.trace ++ u ∧
      fetches u = [i] ∧ u.countP isLogout = 0 := by
  unfold stepAt stepCore
  cases hf : fetch i with
  | none => exact ⟨[Ev.fetchPost i], by simp, by simp [fetches], by simp [isLogout]⟩
  | some pd =>
    obtain ⟨u, hu, hfu, hcu⟩ := stepPost_trace sf
      { s with current_date := some ((s.trace ++ [Ev.fetchPost i], s).2.current_date.getD pd),
               trace := s.trace ++ [Ev.fetchPost i] }
      (s.current_date.getD pd) pd i
    refine ⟨Ev.fetchPost i :: u, ?_, ?_, ?_⟩
    · simpa using hu
    · simpa [fetches] using hfu
    · simpa [isLogout] using hcu

lemma runLoop_trace (fetch : Nat → Option Nat) (sf : Nat → Bool) :
    ∀ (i : Nat) (s : CState),
      ∃ u, (runLoop fetch sf s i).trace = s.trace ++ u ∧
        fetches u = descSeq i ∧ u.countP isLogout = 0 := by
  intro i
  induction i with
  | zero => exact fun s => ⟨[], by simp [runLoop], rfl, rfl⟩
  | succ n ih =>
    intro s
    obtain ⟨t, ht, hft, hct⟩ := stepAt_trace fetch sf s (n + 1)
    obtain ⟨u, hu, hfu, hcu⟩ := ih (stepAt fetch sf s (n + 1))
    refine ⟨t ++ u, ?_, ?_, ?_⟩
    · simp [runLoop, hu, ht]
    · simp [fetches_append, hft, hfu, descSeq]
    · simp [List.countP_append, hct, hcu]

lemma finish_trace (sf : Nat → Bool) (s : CState) :
    ∃ u, (exState (finishCrawl sf s)).trace = s.trace ++ u ∧
      fetches u = [] ∧ u.countP isLogout = 0 := by
  unfold finishCrawl
  cases hcd : s.current_date with
  | none => exact ⟨[], by simp [exState], rfl, rfl⟩
  | some cd =>
    cases hdc : s.dc cd with
    | none => exact ⟨[], by simp [exState, hdc], rfl, rfl⟩
    | some c =>
      unfold save_daily_count
      by_cases hs : sf s.saves
      · exact ⟨[Ev.save ⟨cd, c, 1⟩ (!(sf s.saves))],
          by simp [exState, hdc, hs], rfl, by simp [isLogout]⟩
      · exact ⟨[Ev.save ⟨cd, c, 1⟩ (!(sf s.saves))],
          by simp [exState, hdc, hs], rfl, by simp [isLogout]⟩

lemma descSeq_mem : ∀ (n x : Nat), x ∈ descSeq n → 1 ≤ x ∧ x ≤ n := by
  intro n
  induction n with
  | zero => intro x hx; simp [descSeq] at hx
  | succ m ih =>
    intro x hx
    simp only [descSeq, List.mem_cons] at hx
    rcases hx with h | h
    · omega
    · have := ih x h; omega

lemma descSeq_chain : ∀ n : Nat, List.Chain' (fun a b => a = b + 1) (descSeq n) := by
  intro n
  induction n with
  | zero => simp [descSeq]
  | succ m ih =>
    cases m with
    | zero => simp [descSeq]
    | succ k =>
      rw [show descSeq (k + 1 + 1) = (k + 2) :: (k + 1) :: descSeq k from rfl]
      rw [show descSeq (k + 1) = (k + 1) :: descSeq k from rfl] at ih
      exact List.Chain'.cons rfl ih

lemma descSeq_getLast : ∀ n : Nat, (descSeq n).getLast? = if n = 0 then none else some 1 := by
  intro n
  induction n with
  | zero => rfl
  | succ m ih =>
    cases m with
    | zero => rfl
    | succ k =>
      rw [show descSeq (k + 1 + 1) = (k + 2) :: descSeq (k + 1) from rfl]
      rw [show descSeq (k + 1) = (k + 1) :: descSeq k from rfl] at ih ⊢
      rw [List.getLast?_cons_cons]
      simpa using ih

lemma descSeq_length : ∀ n : Nat, (descSeq n).length = n := by
  intro n
  induction n with
  | zero => rfl
  | succ m ih => simp [descSeq, ih]

lemma stepAt_fetchfail (fetch : Nat → Option Nat) (sf : Nat → Bool) (s : CState)
    (i : Nat) (hf : fetch i = none) :
    stepAt fetch sf s i = { s with trace := s.trace ++ [Ev.fetchPost i] } := by
  simp [stepAt, stepCore, hf]

lemma stepAt_first (fetch : Nat → Option Nat) (sf : Nat → Bool) (s : CState)
    (i pd : Nat) (h1 : s.current_date = none) (hf : fetch i = some pd) :
    stepAt fetch sf s i =
      { s with current_date := some pd,
               dc := fun x => if x = pd then some ((s.dc pd).getD 0 + 1) else s.dc x,
               trace := s.trace ++ [Ev.fetchPost i] } := by
  simp [stepAt, stepCore, stepPost, hf, h1]

lemma stepAt_increment (fetch : Nat → Option Nat) (sf : Nat → Bool) (s : CState)
    (i cd : Nat) (h1 : s.current_date = some cd) (hf : fetch i = some cd) :
    stepAt fetch sf s i =
      { s with dc := fun x => if x = cd then some ((s.dc cd).getD 0 + 1) else s.dc x,
               trace := s.trace ++ [Ev.fetchPost i] } := by
  simp [stepAt, stepCore, stepPost, hf, h1]

lemma stepAt_boundary (fetch : Nat → Option Nat) (sf : Nat → Bool) (s : CState)
    (i cd c pd : Nat) (h1 : s.current_date = some cd) (h2 : s.dc cd = some c)
    (hf : fetch i = some pd) (hne : pd ≠ cd) (hsf : sf s.saves = false) :
    stepAt fetch sf s i =
      { current_date := some pd,
        dc := fun x => if x = pd then some 1 else s.dc x,
        sheet := s.sheet ++ [⟨cd, c, i + 1⟩],
        file := s.sheet ++ [⟨cd, c, i + 1⟩],
        saves := s.saves + 1,
        trace := s.trace ++ [Ev.fetchPost i, Ev.save ⟨cd, c, i + 1⟩ true] } := by
  simp [stepAt, stepCore, stepPost, save_daily_count, hf, h1, h2, hne, hsf]

lemma stepAt_boundary_savefail (fetch : Nat → Option Nat) (sf : Nat → Bool)
    (s : CState) (i cd c pd : Nat) (h1 : s.current_date = some cd)
    (h2 : s.dc cd = some c) (hf : fetch i = some pd) (hne : pd ≠ cd)
    (hsf : sf s.saves = true) :
    stepAt fetch sf s i =
      { s with sheet := s.sheet ++ [⟨cd, c, i + 1⟩], saves := s.saves + 1,
               trace := s.trace ++ [Ev.fetchPost i, Ev.save ⟨cd, c, i + 1⟩ false] } := by
  simp [stepAt, stepCore, stepPost, save_daily_count, hf, h1, h2, hne, hsf]

lemma finish_none (sf : Nat → Bool) (s : CState) (h : s.current_date = none) :
    finishCrawl sf s = Except.ok s := by
  simp [finishCrawl, h]

lemma finish_some_ok (sf : Nat → Bool) (s : CState) (cd c : Nat)
    (h1 : s.current_date = some cd) (h2 : s.dc cd = some c)
    (hsf : sf s.saves = false) :
    finishCrawl sf s =
      Except.ok { s with sheet := s.sheet ++ [⟨cd, c, 1⟩],
                         file := s.sheet ++ [⟨cd, c, 1⟩],
                         saves := s.saves + 1,
                         trace := s.trace ++ [Ev.save ⟨cd, c, 1⟩ true] } := by
  simp [finishCrawl, save_daily_count, h1, h2, hsf]

lemma finish_some_fail (sf : Nat → Bool) (s : CState) (cd c : Nat)
    (h1 : s.current_date = some cd) (h2 : s.dc cd = some c)
    (hsf : sf s.saves = true) :
    finishCrawl sf s =
      Except.error { s with sheet := s.sheet ++ [⟨cd, c, 1⟩],
                            saves := s.saves + 1,
                            trace := s.trace ++ [Ev.save ⟨cd, c, 1⟩ false] } := by
  simp [finishCrawl, save_daily_count, h1, h2, hsf]

/-- Claim C7: starting from any state and any start index `S`, the traversal
loop attempts the per-post fetch at exactly the indices `S, S-1, ..., 1`, in
that order — strictly decreasing by exactly 1 per step on both the success
and the failure outcome — never at 0 or below it, and stops exactly when the
index reaches 0 (the loop is a total function, so the traversal always
terminates). -/
theorem traversal_descending (fetch : Nat → Option Nat) (sf : Nat → Bool)
    (s : CState) (S : Nat) :
    fetches (runLoop fetch sf s S).trace = fetches s.trace ++ descSeq S ∧
    List.Chain' (fun a b => a = b + 1) (descSeq S) ∧
    (descSeq S).all (fun x => decide (1 ≤ x) && decide (x ≤ S)) = true ∧
    (descSeq S).getLast? = (if S = 0 then none else some 1) ∧
    (descSeq S).length = S := by
  obtain ⟨u, hu, hfu, _⟩ := runLoop_trace fetch sf S s
  refine ⟨by rw [hu, fetches_append, hfu], descSeq_chain S, ?_,
    descSeq_getLast S, descSeq_length S⟩
  rw [List.all_eq_true]
  intro x hx
  have := descSeq_mem S x hx
  simp [this.1, this.2]

/-- Claim C8: on every exit path of `crawl` — normal completion, fatal login
or newest-index failure, and a propagating error from the traversal's final
flush — the logout is attempted exactly once; and a failing logout is
swallowed, so the run's outcome and its durably appended rows are identical
whether the logout succeeds or fails (a close failure never masks an earlier
crawl error). -/
theorem logout_exactly_once (e : Env) :
    (crawl e).trace.countP isLogout = 1 ∧
    (crawl { e with logoutOk := false }).outcome = (crawl e).outcome ∧
    (crawl { e with logoutOk := false }).appended = (crawl e).appended := by
  refine ⟨?_, ?_, ?_⟩
  · unfold crawl
    by_cases hl : e.loginOk = false
    · simp [hl, isLogout]
    · by_cases hn : e.newestOk = false
      · simp [hl, hn, isLogout]
      · simp only [hl, hn, if_false]
        obtain ⟨u, hu, _, hcu⟩ := runLoop_trace e.fetch e.saveFails (startIndex e) initState
        obtain ⟨v, hv, _, hcv⟩ :=
          finish_trace e.saveFails (runLoop e.fetch e.saveFails initState (startIndex e))
        have h0 : initState.trace.countP isLogout = 0 := rfl
        simp [List.countP_append, hv, hu, hcu, hcv, h0, isLogout]
  · unfold crawl
    by_cases hl : e.loginOk = false <;> by_cases hn : e.newestOk = false <;>
      simp [hl, hn, startIndex, resumeIndex]
  · unfold crawl
    by_cases hl : e.loginOk = false <;> by_cases hn : e.newestOk = false <;>
      simp [hl, hn, startIndex, resumeIndex]

/-- Claim C2 counterexample: in `envMidSaveFail` the day-boundary append at
index 2 fails durably (event `Ev.save ⟨1, 1, 3⟩ false`), yet the run goes on
to fetch index 1 afterwards and completes normally (`outcome = true`) — the
failure is caught by the per-index handler instead of propagating and
aborting the run. -/
theorem midloop_save_failure_not_fatal :
    (crawl envMidSaveFail).outcome = true ∧
    (crawl envMidSaveFail).trace =
      [Ev.login, Ev.fetchNewest, Ev.fetchPost 3, Ev.fetchPost 2,
       Ev.save ⟨1, 1, 3⟩ false, Ev.fetchPost 1, Ev.save ⟨1, 1, 2⟩ true,
       Ev.save ⟨0, 1, 1⟩ true, Ev.logout true] := by
  exact ⟨rfl, rfl⟩

/-- Claim C3 counterexample: in `envResumeZero` the progress cursor has
`resume_index = some 0` (last row's `earliest_index = 1`), but the traversal
starts from the newest index 2, not from 0 — Python's `or` treats the
integer 0 as absent. -/
theorem resume_zero_uses_newest :
    resumeIndex envResumeZero = some 0 ∧
    startIndex envResumeZero = envResumeZero.newestIndex ∧
    envResumeZero.newestIndex = 2 ∧ startIndex envResumeZero ≠ 0 := by
  exact ⟨rfl, rfl, rfl, by decide⟩

/-- Claim C3 as amended: the traversal's starting index is the cursor's
`resume_index` whenever that index is nonzero; the newest remote index is
used when the cursor has no `resume_index` **or** has `resume_index = 0`
(the Python `or` on line 106 treats the falsy integer 0 like `None`). -/
theorem startIndex_resume_policy (e : Env) (n : Nat) :
    (resumeIndex e = some n → n ≠ 0 → startIndex e = n) ∧
    (resumeIndex e = some 0 → startIndex e = e.newestIndex) ∧
    (resumeIndex e = none → startIndex e = e.newestIndex) := by
  refine ⟨fun h hn => ?_, fun h => ?_, fun h => ?_⟩
  · simp [startIndex, h, hn]
  · simp [startIndex, h]
  · simp [startIndex, h]

/-- Witness for `startIndex_resume_policy` at `envResumeFive`. -/
theorem startIndex_resume_policy_witness :
    resumeIndex envResumeFive = some 5 ∧ startIndex envResumeFive = 5 :=
  ⟨rfl, (startIndex_resume_policy envResumeFive 5).1 rfl (by decide)⟩

lemma retryAux_count_le {E A : Type} (op : Nat → Except E A) (maxR : Nat) :
    ∀ (fuel attempt : Nat), (retryAux op maxR attempt fuel).2 ≤ fuel := by
  intro fuel
  induction fuel with
  | zero => intro attempt; simp [retryAux]
  | succ m ih =>
    intro attempt
    unfold retryAux
    cases op attempt with
    | ok a => simp
    | error err =>
      by_cases h : attempt = maxR - 1
      · simp [h]
      · simp only [h, if_false]
        have := ih (attempt + 1)
        omega

lemma retryAux_allfail {E A : Type} (op : Nat → Except E A) (maxR : Nat) :
    ∀ (fuel attempt : Nat), attempt + fuel = maxR → 1 ≤ fuel →
      (∀ i, attempt ≤ i → i < maxR → ∃ err, op i = Except.error err) →
      retryAux op maxR attempt fuel = (some (op (maxR - 1)), fuel) := by
  intro fuel
  induction fuel with
  | zero => intro attempt _ h1; omega
  | succ m ih =>
    intro attempt hsum _ hfail
    obtain ⟨err, herr⟩ := hfail attempt (le_refl attempt) (by omega)
    unfold retryAux
    rw [herr]
    by_cases h : attempt = maxR - 1
    · have hm : m = 0 := by omega
      subst hm
      simp [h, ← herr]
    · have hm : 1 ≤ m := by omega
      have := ih (attempt + 1) (by omega) hm
        (fun i hi1 hi2 => hfail i (by omega) hi2)
      simp [h, this]

lemma retryAux_success {E A : Type} (op : Nat → Except E A) (maxR : Nat)
    (k : Nat) (a : A) (hk : k < maxR) (hop : op k = Except.ok a)
    (hfail : ∀ i, i < k → ∃ err, op i = Except.error err) :
    ∀ (fuel attempt : Nat), attempt ≤ k → k < attempt + fuel →
      retryAux op maxR attempt fuel = (some (Except.ok a), k + 1 - attempt) := by
  intro fuel
  induction fuel with
  | zero => intro attempt _ h2; omega
  | succ m ih =>
    intro attempt h1 h2
    unfold retryAux
    by_cases he : attempt = k
    · subst he
      rw [hop]
      simp
    · obtain ⟨err, herr⟩ := hfail attempt (by omega)
      rw [herr]
      have hne : attempt ≠ maxR - 1 := by omega
      have := ih (attempt + 1) (by omega) (by omega)
      simp [hne, this]
      omega

/-- Claim C5: for every operation and `max_retries ≥ 1`, `retry_operation`
invokes the operation at most `max_retries` times; if every attempt fails, it
is invoked exactly `max_retries` times and the last observed exception is
re-raised; if attempt `k` (0-based) is the first to succeed, the operation is
invoked exactly `k + 1 ≤ max_retries` times and the successful result is
returned.  (The `max_retries = 3` / fails-twice-then-succeeds instance is the
`k = 2` case; see the witness.) -/
theorem retry_operation_spec {E A : Type} (op : Nat → Except E A)
    (maxR k : Nat) (a : A) (hmax : 1 ≤ maxR) :
    (retry_operation op maxR).2 ≤ maxR ∧
    ((∀ i, i < maxR → ∃ err, op i = Except.error err) →
       retry_operation op maxR = (some (op (maxR - 1)), maxR)) ∧
    (k < maxR → op k = Except.ok a →
       (∀ i, i < k → ∃ err, op i = Except.error err) →
       retry_operation op maxR = (some (Except.ok a), k + 1)) := by
  refine ⟨retryAux_count_le op maxR maxR 0, fun hfail => ?_, fun hk hop hfail => ?_⟩
  · exact retryAux_allfail op maxR maxR 0 (by omega) hmax
      (fun i _ hi => hfail i hi)
  · have := retryAux_success op maxR k a hk hop hfail maxR 0 (by omega) (by omega)
    simpa using this

/-- Witness for `retry_operation_spec`: with `max_retries = 3`, an operation
that fails twice then succeeds is invoked exactly 3 times and its successful
result is returned. -/
theorem retry_operation_spec_witness :
    retry_operation opTwiceFail 3 = (some (Except.ok 42), 3) :=
  (retry_operation_spec opTwiceFail 3 2 42 (by decide)).2.2 (by decide) rfl
    (fun i hi => ⟨i, by simp [opTwiceFail, hi]⟩)

/-- Claim C6: `load_progress` with no existing table creates a header-only
table (no data rows) and yields an empty cursor; with an existing table
whose last valid data row (date cell and index cell both truthy) is
`(d, n)`, it yields `resume_date = d` and `resume_index = n - 1`, leaving
the rows unchanged. -/
theorem load_progress_spec (rows : List FileRow) (d n : Nat) :
    load_progress false rows = ((none, none), []) ∧
    ((validPairs rows).getLast? = some (d, n) →
       load_progress true rows = ((some d, some (n - 1)), rows)) := by
  refine ⟨rfl, fun h => ?_⟩
  simp [load_progress, h]

/-- Witness for `load_progress_spec` on `rowsLoad`. -/
theorem load_progress_spec_witness :
    load_progress true rowsLoad = ((some 5, some 2), rowsLoad) ∧
    load_progress false rowsLoad = ((none, none), []) :=
  ⟨(load_progress_spec rowsLoad 5 3).2 rfl, (load_progress_spec rowsLoad 5 3).1⟩

/-- Claim C9: on a day-boundary step at index `i` (parsed date `pd` differs
from the active day `cd`), the flush appends the row
`(cd, in-memory count of cd, i + 1)` — the earliest index carried is the
index *after* the current step, i.e. the last index that belonged to the old
date — after which `pd` becomes the active day with in-memory count 1; and
the final flush at index 0 appends the active day's row with
`earliest_index = 1`. -/
theorem flush_row_content (fetch : Nat → Option Nat) (sf : Nat → Bool)
    (s : CState) (i cd c pd : Nat) (h1 : s.current_date = some cd)
    (h2 : s.dc cd = some c) (hsf : sf s.saves = false) :
    (fetch i = some pd → pd ≠ cd →
       (stepAt fetch sf s i).sheet = s.sheet ++ [⟨cd, c, i + 1⟩] ∧
       (stepAt fetch sf s i).file = s.sheet ++ [⟨cd, c, i + 1⟩] ∧
       (stepAt fetch sf s i).current_date = some pd ∧
       (stepAt fetch sf s i).dc pd = some 1) ∧
    (∃ s2, finishCrawl sf s = Except.ok s2 ∧
       s2.sheet = s.sheet ++ [⟨cd, c, 1⟩] ∧ s2.file = s.sheet ++ [⟨cd, c, 1⟩]) := by
  constructor
  · intro hf hne
    rw [stepAt_boundary fetch sf s i cd c pd h1 h2 hf hne hsf]
    simp
  · exact ⟨_, finish_some_ok sf s cd c h1 h2 hsf, rfl, rfl⟩

/-- Witness for `flush_row_content`: a boundary step at index 7 (post date 4)
flushes `(5, 2, 8)` and makes day 4 active with count 1; the final flush
from the same state would append `(5, 2, 1)`. -/
theorem flush_row_content_witness :
    (stepAt (fun _ => some 4) (fun _ => false) stateActive5 7).sheet =
      [⟨5, 2, 8⟩] ∧
    (stepAt (fun _ => some 4) (fun _ => false) stateActive5 7).current_date =
      some 4 ∧
    (∃ s2, finishCrawl (fun _ => false) stateActive5 = Except.ok s2 ∧
       s2.sheet = [⟨5, 2, 1⟩] ∧ s2.file = [⟨5, 2, 1⟩]) := by
  have h := flush_row_content (fun _ => some 4) (fun _ => false) stateActive5
    7 5 2 4 rfl rfl rfl
  have hb := h.1 rfl (by decide)
  exact ⟨hb.1, hb.2.2.1, h.2⟩

/-- Claim C2 as amended: a failure of the durable append performed by the
**final flush** at index 0 propagates and aborts the run (`crawl` reports an
error); but a failure of the append triggered by a **day-boundary crossing
mid-traversal** is caught by the per-index exception handler: the durable
file and the active day are left unchanged (the row stays only in the
in-memory sheet), and the traversal continues — every remaining index is
still fetched, whatever the save outcomes. -/
theorem save_failure_policy (e : Env) (s : CState) (i cd c pd : Nat)
    (h1 : s.current_date = some cd) (h2 : s.dc cd = some c) :
    (e.fetch i = some pd → pd ≠ cd → e.saveFails s.saves = true →
       (stepAt e.fetch e.saveFails s i).file = s.file ∧
       (stepAt e.fetch e.saveFails s i).current_date = some cd ∧
       (stepAt e.fetch e.saveFails s i).dc = s.dc ∧
       (stepAt e.fetch e.saveFails s i).sheet = s.sheet ++ [⟨cd, c, i + 1⟩]) ∧
    (∀ j, fetches (runLoop e.fetch e.saveFails s j).trace =
       fetches s.trace ++ descSeq j) ∧
    (e.saveFails s.saves = true →
       finishCrawl e.saveFails s =
         Except.error { s with sheet := s.sheet ++ [⟨cd, c, 1⟩],
                               saves := s.saves + 1,
                               trace := s.trace ++ [Ev.save ⟨cd, c, 1⟩ false] }) ∧
    (e.loginOk = true → e.newestOk = true →
       ((crawl e).outcome = false ↔
         isOkB (finishCrawl e.saveFails
           (runLoop e.fetch e.saveFails initState (startIndex e))) = false)) := by
  refine ⟨fun hf hne hsf => ?_, fun j => ?_, fun hsf => ?_, fun hl hn => ?_⟩
  · rw [stepAt_boundary_savefail e.fetch e.saveFails s i cd c pd h1 h2 hf hne hsf]
    exact ⟨rfl, h1, rfl, rfl⟩
  · obtain ⟨u, hu, hfu, _⟩ := runLoop_trace e.fetch e.saveFails j s
    rw [hu, fetches_append, hfu]
  · exact finish_some_fail e.saveFails s cd c h1 h2 hsf
  · simp [crawl, hl, hn]

/-- Witness for `save_failure_policy` at `stateActive5` / `envAllSaveFail`. -/
theorem save_failure_policy_witness :
    ((stepAt envAllSaveFail.fetch envAllSaveFail.saveFails stateActive5 7).file =
       [] ∧
     (stepAt envAllSaveFail.fetch envAllSaveFail.saveFails stateActive5 7).current_date =
       some 5) ∧
    finishCrawl envAllSaveFail.saveFails stateActive5 =
      Except.error { stateActive5 with sheet := [⟨5, 2, 1⟩], saves := 1,
                                       trace := [Ev.save ⟨5, 2, 1⟩ false] } := by
  have h := save_failure_policy envAllSaveFail stateActive5 7 5 2 4 rfl rfl
  have hb := h.1 rfl (by decide) rfl
  refine ⟨⟨hb.1, hb.2.1⟩, ?_⟩
  have := h.2.2.1 rfl
  simpa [stateActive5] using this

lemma sumCount_append (l : List TallyRow) (r : TallyRow) (d : Nat) :
    sumCount (l ++ [r]) d = sumCount l d + (if r.rdate = d then r.rcount else 0) := by
  by_cases h : r.rdate = d <;> simp [sumCount, List.filter_append, h]

lemma stepAt_sum (fetch : Nat → Option Nat) (sf : Nat → Bool)
    (hsf : ∀ n, sf n = false) (s : CState) (i : Nat) (hg : GoodState s) :
    GoodState (stepAt fetch sf s i) ∧
    ∀ d, sumCount (stepAt fetch sf s i).file d + activeTerm (stepAt fetch sf s i) d =
      sumCount s.file d + activeTerm s d + (if fetch i = some d then 1 else 0) := by
  obtain ⟨hfs, hnone, hsome⟩ := hg
  cases hf : fetch i with
  | none =>
    rw [stepAt_fetchfail fetch sf s i hf]
    exact ⟨⟨hfs, hnone, hsome⟩, fun d => by simp [activeTerm]⟩
  | some pd =>
    cases hcd : s.current_date with
    | none =>
      rw [stepAt_first fetch sf s i pd hcd hf]
      have hdc := hnone hcd
      constructor
      · refine ⟨hfs, fun h => ?_, fun a ha => ?_⟩
        · simp at h
        · obtain rfl : pd = a := Option.some.inj ha
          simp
      · intro d
        by_cases hd : pd = d
        · subst hd
          simp [activeTerm, hcd, hf, hdc pd]
        · have hnd : (some pd = some d) = False := by simp [hd]
          simp [activeTerm, hcd, hf, hnd, hd]
    | some cd =>
      by_cases hpd : pd = cd
      · subst hpd
        rw [stepAt_increment fetch sf s i pd hcd hf]
        obtain ⟨c, hc⟩ := Option.isSome_iff_exists.mp (hsome pd hcd)
        constructor
        · refine ⟨hfs, fun h => ?_, fun a ha => ?_⟩
          · rw [show ({ s with
                dc := fun x => if x = pd then some ((s.dc pd).getD 0 + 1) else s.dc x,
                trace := s.trace ++ [Ev.fetchPost i] } : CState).current_date =
              s.current_date from rfl, hcd] at h
            simp at h
          · rw [show ({ s with
                dc := fun x => if x = pd then some ((s.dc pd).getD 0 + 1) else s.dc x,
                trace := s.trace ++ [Ev.fetchPost i] } : CState).current_date =
              s.current_date from rfl, hcd] at ha
            obtain rfl : pd = a := Option.some.inj ha
            simp
        · intro d
          by_cases hd : pd = d
          · subst hd
            simp [activeTerm, hcd, hf, hc]
            omega
          · have hnd : (some pd = some d) = False := by simp [hd]
            simp [activeTerm, hcd, hf, hnd, hd]
      · obtain ⟨c, hc⟩ := Option.isSome_iff_exists.mp (hsome cd hcd)
        rw [stepAt_boundary fetch sf s i cd c pd hcd hc hf hpd (hsf s.saves)]
        constructor
        · refine ⟨rfl, fun h => ?_, fun a ha => ?_⟩
          · simp at h
          · obtain rfl : pd = a := Option.some.inj ha
            simp
        · intro d
          have hfile : sumCount (s.sheet ++ [(⟨cd, c, i + 1⟩ : TallyRow)]) d =
              sumCount s.file d + (if cd = d then c else 0) := by
            rw [← hfs, sumCount_append]
          by_cases hd : pd = d
          · subst hd
            have hcdd : ¬(cd = pd) := fun h => hpd h.symm
            simp only [activeTerm, hcd, hf]
            simp [hfile, hc, hcdd]
          · have hnd : (some pd = some d) = False := by simp [hd]
            simp only [activeTerm, hcd, hf]
            simp [hfile, hc, hd, hnd]

lemma runLoop_sum (fetch : Nat → Option Nat) (sf : Nat → Bool)
    (hsf : ∀ n, sf n = false) :
    ∀ (i : Nat) (s : CState), GoodState s →
      GoodState (runLoop fetch sf s i) ∧
      ∀ d, sumCount (runLoop fetch sf s i).file d +
          activeTerm (runLoop fetch sf s i) d =
        sumCount s.file d + activeTerm s d + succCount fetch d i := by
  intro i
  induction i with
  | zero => exact fun s hg => ⟨hg, fun d => by simp [runLoop, succCount]⟩
  | succ n ih =>
    intro s hg
    obtain ⟨hg1, hsum1⟩ := stepAt_sum fetch sf hsf s (n + 1) hg
    obtain ⟨hg2, hsum2⟩ := ih (stepAt fetch sf s (n + 1)) hg1
    refine ⟨by simpa [runLoop] using hg2, fun d => ?_⟩
    have h2 := hsum2 d
    have h1 := hsum1 d
    rw [show runLoop fetch sf s (n + 1) =
      runLoop fetch sf (stepAt fetch sf s (n + 1)) n from rfl]
    rw [h2, h1]
    simp [succCount]
    omega

lemma finish_sum (sf : Nat → Bool) (hsf : ∀ n, sf n = false) (s : CState)
    (hg : GoodState s) :
    ∃ s2, finishCrawl sf s = Except.ok s2 ∧
      ∀ d, sumCount s2.file d = sumCount s.file d + activeTerm s d := by
  obtain ⟨hfs, hnone, hsome⟩ := hg
  cases hcd : s.current_date with
  | none =>
    exact ⟨s, finish_none sf s hcd, fun d => by simp [activeTerm, hcd]⟩
  | some cd =>
    obtain ⟨c, hc⟩ := Option.isSome_iff_exists.mp (hsome cd hcd)
    refine ⟨_, finish_some_ok sf s cd c hcd hc (hsf s.saves), fun d => ?_⟩
    have hfile : sumCount (s.sheet ++ [(⟨cd, c, 1⟩ : TallyRow)]) d =
        sumCount s.file d + (if cd = d then c else 0) := by
      rw [← hfs, sumCount_append]
    by_cases hd : cd = d
    · subst hd
      simp [activeTerm, hcd, hc, hfile]
    · simp [activeTerm, hcd, hc, hd, hfile]

lemma initState_good : GoodState initState := by
  refine ⟨rfl, fun _ d => rfl, fun a ha => ?_⟩
  simp [initState] at ha

/-- For every run that logs in, finds the newest index, and whose durable
saves all succeed, the run completes normally and the total persisted count
for each date equals the number of visited indices whose fetch succeeded
with that date — regardless of date ordering and of which fetches fail. -/
lemma crawl_counts (e : Env) (hl : e.loginOk = true) (hn : e.newestOk = true)
    (hsf : ∀ n, e.saveFails n = false) :
    (crawl e).outcome = true ∧
    ∀ d, sumCount (crawl e).appended d = succCount e.fetch d (startIndex e) := by
  obtain ⟨hg1, hsum1⟩ :=
    runLoop_sum e.fetch e.saveFails hsf (startIndex e) initState initState_good
  obtain ⟨s2, hfin, hsum2⟩ := finish_sum e.saveFails hsf _ hg1
  constructor
  · unfold crawl
    simp [hl, hn, hfin, isOkB]
  · intro d
    have h0f : sumCount initState.file d = 0 := rfl
    have h0a : activeTerm initState d = 0 := rfl
    have : sumCount (crawl e).appended d = sumCount s2.file d := by
      unfold crawl
      simp [hl, hn, hfin, exState]
    rw [this, hsum2 d, hsum1 d, h0f, h0a]
    omega

lemma crawl_fetches (e : Env) (hl : e.loginOk = true) (hn : e.newestOk = true) :
    fetches (crawl e).trace = descSeq (startIndex e) := by
  obtain ⟨u, hu, hfu, _⟩ := runLoop_trace e.fetch e.saveFails (startIndex e) initState
  obtain ⟨v, hv, hfv, _⟩ :=
    finish_trace e.saveFails (runLoop e.fetch e.saveFails initState (startIndex e))
  have h0 : fetches initState.trace = [] := rfl
  have hlog : fetches [Ev.logout e.logoutOk] = [] := rfl
  have htr : (crawl e).trace =
      (exState (finishCrawl e.saveFails
        (runLoop e.fetch e.saveFails initState (startIndex e)))).trace ++
      [Ev.logout e.logoutOk] := by
    unfold crawl
    simp [hl, hn]
  rw [htr, hv, hu, fetches_append, fetches_append, fetches_append, hfu, hfv,
    h0, hlog]
  simp

lemma startIndex_fresh (e : Env) (hfe : e.fileExists = false) :
    startIndex e = e.newestIndex := by
  simp [startIndex, resumeIndex, load_progress, hfe]

lemma succCount_failAt (f : Nat → Option Nat) (k d : Nat) (hd : f k = some d) :
    ∀ S, succCount f d S =
      succCount (fun i => if i = k then none else f i) d S +
        (if 1 ≤ k ∧ k ≤ S then 1 else 0) := by
  intro S
  induction S with
  | zero =>
    have h0 : ¬(1 ≤ k ∧ k ≤ 0) := by omega
    rw [if_neg h0]
    rfl
  | succ n ih =>
    by_cases hk : n + 1 = k
    · subst hk
      have hpre : ¬(1 ≤ n + 1 ∧ n + 1 ≤ n) := by omega
      rw [if_neg hpre] at ih
      simp [succCount, hd, ih]
      omega
    · have hiff : (1 ≤ k ∧ k ≤ n + 1) ↔ (1 ≤ k ∧ k ≤ n) := by omega
      simp [succCount, hk, hiff, ih]
      omega

/-- Claim C4: if the fetch at a single index `k` fails on every retry
attempt while all other fetches in `1..N` succeed, the run does not abort:
the failing step leaves the whole crawl state (active day, counters, rows)
unchanged, every index down to 1 is still fetched, the run completes
normally, and the persisted count for the date `k` is mapped to is exactly 1
less than what the fully-reachable run records for that date. -/
theorem single_failure_undercount (e : Env) (k : Nat) (dmap : Nat → Nat)
    (hl : e.loginOk = true) (hn : e.newestOk = true) (hfe : e.fileExists = false)
    (hk1 : 1 ≤ k) (hkN : k ≤ e.newestIndex)
    (hf : ∀ m, 1 ≤ m → m ≤ e.newestIndex → e.fetch m = some (dmap m))
    (hsf : ∀ n, e.saveFails n = false) :
    (crawl (failAt e k)).outcome = true ∧
    sumCount (crawl e).appended (dmap k) =
      sumCount (crawl (failAt e k)).appended (dmap k) + 1 ∧
    fetches (crawl (failAt e k)).trace = descSeq e.newestIndex ∧
    (∀ s : CState,
      (stepAt (failAt e k).fetch e.saveFails s k).current_date = s.current_date ∧
      (stepAt (failAt e k).fetch e.saveFails s k).dc = s.dc ∧
      (stepAt (failAt e k).fetch e.saveFails s k).file = s.file ∧
      (stepAt (failAt e k).fetch e.saveFails s k).sheet = s.sheet) := by
  have hstart : startIndex e = e.newestIndex := startIndex_fresh e hfe
  have hstart2 : startIndex (failAt e k) = e.newestIndex := by
    rw [show startIndex (failAt e k) = startIndex e from rfl, hstart]
  have hc1 := crawl_counts e hl hn hsf
  have hc2 := crawl_counts (failAt e k) hl hn hsf
  have hkfail : (failAt e k).fetch k = none := by simp [failAt]
  refine ⟨hc2.1, ?_, ?_, fun s => ?_⟩
  · rw [hc1.2 (dmap k), hc2.2 (dmap k), hstart, hstart2]
    have := succCount_failAt e.fetch k (dmap k) (hf k hk1 hkN) e.newestIndex
    rw [show (failAt e k).fetch = fun i => if i = k then none else e.fetch i from rfl]
    rw [this]
    simp [hk1, hkN]
  · rw [crawl_fetches (failAt e k) hl hn, hstart2]
  · rw [stepAt_fetchfail (failAt e k).fetch e.saveFails s k hkfail]
    exact ⟨rfl, rfl, rfl, rfl⟩

lemma runLoop_allfail (fetch : Nat → Option Nat) (sf : Nat → Bool) :
    ∀ (i : Nat) (s : CState), (∀ m, 1 ≤ m → m ≤ i → fetch m = none) →
      runLoop fetch sf s i =
        { s with trace := s.trace ++ (descSeq i).map Ev.fetchPost } := by
  intro i
  induction i with
  | zero => intro s _; simp [runLoop, descSeq]
  | succ n ih =>
    intro s hf
    rw [show runLoop fetch sf s (n + 1) =
      runLoop fetch sf (stepAt fetch sf s (n + 1)) n from rfl]
    rw [stepAt_fetchfail fetch sf s (n + 1) (hf (n + 1) (by omega) (by omega))]
    rw [ih _ (fun m h1 h2 => hf m h1 (by omega))]
    simp [descSeq]

/-- Claim C10: in a run where no post fetch ever succeeds, the traversal
still walks the index all the way down (all of `S, ..., 1` are fetched), no
row is appended to either the sheet or the durable file, the final flush is
skipped (no save event at all appears in the trace), and the run completes
without raising an error. -/
theorem all_fetches_fail_no_rows (e : Env) (hl : e.loginOk = true)
    (hn : e.newestOk = true)
    (hf : ∀ m, 1 ≤ m → m ≤ startIndex e → e.fetch m = none) :
    (crawl e).outcome = true ∧ (crawl e).appended = [] ∧
    (crawl e).sheetRows = [] ∧
    (crawl e).trace = [Ev.login, Ev.fetchNewest] ++
      (descSeq (startIndex e)).map Ev.fetchPost ++ [Ev.logout e.logoutOk] := by
  have hrun := runLoop_allfail e.fetch e.saveFails (startIndex e) initState hf
  have hfin : finishCrawl e.saveFails
      (runLoop e.fetch e.saveFails initState (startIndex e)) =
      Except.ok { initState with
        trace := initState.trace ++ (descSeq (startIndex e)).map Ev.fetchPost } := by
    rw [hrun]
    exact finish_none _ _ rfl
  have h0f : initState.file = [] := rfl
  have h0s : initState.sheet = [] := rfl
  have h0t : initState.trace = [Ev.login, Ev.fetchNewest] := rfl
  unfold crawl
  simp [hl, hn, hfin, isOkB, exState, h0f, h0s, h0t]

lemma cntBetween_zero (dmap : Nat → Nat) (d : Nat) :
    ∀ (fuel j : Nat), (∀ m, j ≤ m → m < j + fuel → dmap m ≠ d) →
      cntBetween dmap d j fuel = 0 := by
  intro fuel
  induction fuel with
  | zero => intro j _; rfl
  | succ n ih =>
    intro j h
    have h1 : dmap j ≠ d := h j (le_refl j) (by omega)
    simp only [cntBetween, if_neg h1, Nat.zero_add]
    exact ih (j + 1) (fun m hm1 hm2 => h m (by omega) (by omega))

lemma cntFrom_succ (dmap : Nat → Nat) (N d j : Nat) (hj : j ≤ N) :
    cntFrom dmap N d j = (if dmap j = d then 1 else 0) + cntFrom dmap N d (j + 1) := by
  unfold cntFrom
  rw [show N + 1 - j = (N + 1 - (j + 1)) + 1 from by omega]
  rfl

lemma cntFrom_top (dmap : Nat → Nat) (N d : Nat) : cntFrom dmap N d (N + 1) = 0 := by
  unfold cntFrom
  rw [Nat.sub_self]
  rfl

lemma cntFrom_zero (dmap : Nat → Nat) (N d j : Nat)
    (h : ∀ m, j ≤ m → m ≤ N → dmap m ≠ d) : cntFrom dmap N d j = 0 :=
  cntBetween_zero dmap d (N + 1 - j) j (fun m hm1 hm2 => h m hm1 (by omega))

lemma cntFrom_pos (dmap : Nat → Nat) (N d j : Nat) (hj : j ≤ N)
    (hd : dmap j = d) : 0 < cntFrom dmap N d j := by
  rw [cntFrom_succ dmap N d j hj, if_pos hd]
  omega

lemma firstIdxFrom_eq (dmap : Nat → Nat) (d : Nat) :
    ∀ (fuel j k : Nat), j ≤ k → k < j + fuel → dmap k = d →
      (∀ m, j ≤ m → m < k → dmap m ≠ d) →
      firstIdxFrom dmap d j fuel = some k := by
  intro fuel
  induction fuel with
  | zero => intro j k h1 h2 _ _; omega
  | succ n ih =>
    intro j k h1 h2 hd hbef
    by_cases hjk : j = k
    · subst hjk
      simp [firstIdxFrom, hd]
    · have hne : dmap j ≠ d := hbef j (le_refl j) (by omega)
      simp only [firstIdxFrom, if_neg hne]
      exact ih (j + 1) k (by omega) (by omega) hd
        (fun m hm1 hm2 => hbef m (by omega) hm2)

lemma minIdx_eq (dmap : Nat → Nat) (N d k : Nat) (hk1 : 1 ≤ k) (hkN : k ≤ N)
    (hd : dmap k = d) (hbef : ∀ m, 1 ≤ m → m < k → dmap m ≠ d) :
    minIdx dmap N d = k := by
  unfold minIdx
  rw [firstIdxFrom_eq dmap d N 1 k hk1 (by omega) hd hbef]
  rfl

lemma Inv1_step (dmap : Nat → Nat) (N : Nat) (fetch : Nat → Option Nat)
    (sf : Nat → Bool) (hf : ∀ m, 1 ≤ m → m ≤ N → fetch m = some (dmap m))
    (hmono : ∀ a b, 1 ≤ a → a ≤ b → b ≤ N → dmap a ≤ dmap b)
    (hsf : ∀ n, sf n = false) (i : Nat) (hi : i < N) (s : CState)
    (h : Inv1 dmap N (i + 1) s) : Inv1 dmap N i (stepAt fetch sf s (i + 1)) := by
  obtain ⟨hfs, hN, hlt⟩ := h
  have hfetch : fetch (i + 1) = some (dmap (i + 1)) := hf (i + 1) (by omega) (by omega)
  by_cases hiN : i + 1 = N
  · -- very first processed index
    obtain ⟨hcd, hdc, hfile⟩ := hN hiN
    rw [stepAt_first fetch sf s (i + 1) (dmap (i + 1)) hcd hfetch]
    refine ⟨hfs, fun hEq => absurd hEq (by omega), fun _ => ⟨rfl, ?_, ?_⟩⟩
    · intro d
      show (if d = dmap (i + 1)
          then some ((s.dc (dmap (i + 1))).getD 0 + 1) else s.dc d) = _
      have hc1 : cntFrom dmap N (dmap (i + 1)) (i + 1) = 1 := by
        rw [cntFrom_succ dmap N (dmap (i + 1)) (i + 1) (by omega), if_pos rfl,
          hiN, cntFrom_top]
      by_cases hd : d = dmap (i + 1)
      · subst hd
        rw [if_pos rfl, hdc, hc1]
        simp
      · rw [if_neg hd, hdc d]
        have hz : cntFrom dmap N d (i + 1) = 0 := by
          rw [cntFrom_succ dmap N d (i + 1) (by omega),
            if_neg (fun hh => hd hh.symm), hiN, cntFrom_top]
        rw [hz]
        simp
    · intro d
      show s.file.filter (fun r => r.rdate = d) = _
      by_cases hd : d = dmap (i + 1)
      · rw [hfile]
        rw [if_neg (by simp [hd])]
        simp
      · have hz : cntFrom dmap N d (i + 1) = 0 := by
          rw [cntFrom_succ dmap N d (i + 1) (by omega),
            if_neg (fun hh => hd hh.symm), hiN, cntFrom_top]
        rw [hfile, hz]
        rw [if_neg (by simp)]
        simp
  · -- at least one index already processed
    have hi2 : i + 2 ≤ N := by omega
    obtain ⟨hcd, hdc, hfile⟩ := hlt (by omega)
    have hcnt2pos : 0 < cntFrom dmap N (dmap (i + 2)) (i + 2) :=
      cntFrom_pos dmap N (dmap (i + 2)) (i + 2) hi2 rfl
    have hdccd : s.dc (dmap (i + 2)) =
        some (cntFrom dmap N (dmap (i + 2)) (i + 2)) := by
      rw [hdc (dmap (i + 2)), if_pos hcnt2pos]
    by_cases hpd : dmap (i + 1) = dmap (i + 2)
    · -- same date: increment
      rw [stepAt_increment fetch sf s (i + 1) (dmap (i + 2)) hcd
        (by rw [hfetch, hpd])]
      refine ⟨hfs, fun hEq => absurd hEq (by omega), fun _ => ⟨?_, ?_, ?_⟩⟩
      · show s.current_date = some (dmap (i + 1))
        rw [hcd, hpd]
      · intro d
        show (if d = dmap (i + 2)
            then some ((s.dc (dmap (i + 2))).getD 0 + 1) else s.dc d) = _
        by_cases hd : d = dmap (i + 2)
        · subst hd
          rw [if_pos rfl, hdccd]
          have hc1 : cntFrom dmap N (dmap (i + 2)) (i + 1) =
              1 + cntFrom dmap N (dmap (i + 2)) (i + 2) := by
            rw [cntFrom_succ dmap N (dmap (i + 2)) (i + 1) (by omega), if_pos hpd]
          rw [hc1, if_pos (by omega)]
          simp [Nat.add_comm]
        · rw [if_neg hd, hdc d]
          have hne : dmap (i + 1) ≠ d := fun hh => hd (hh ▸ hpd)
          have hshift : cntFrom dmap N d (i + 1) = cntFrom dmap N d (i + 2) := by
            rw [cntFrom_succ dmap N d (i + 1) (by omega), if_neg hne, Nat.zero_add]
          rw [hshift]
      · intro d
        show s.file.filter (fun r => r.rdate = d) = _
        rw [hfile d]
        by_cases hd : d = dmap (i + 2)
        · have hd1 : d = dmap (i + 1) := by rw [hd, ← hpd]
          rw [if_neg (by simp [hd]), if_neg (by simp [hd1])]
        · have hne : dmap (i + 1) ≠ d := fun hh => hd (hh ▸ hpd)
          have hne1 : d ≠ dmap (i + 1) := fun hh => hne hh.symm
          have hshift : cntFrom dmap N d (i + 1) = cntFrom dmap N d (i + 2) := by
            rw [cntFrom_succ dmap N d (i + 1) (by omega), if_neg hne, Nat.zero_add]
          rw [hshift]
          simp [hd, hne1]
    · -- date changed: boundary flush
      have hle : dmap (i + 1) ≤ dmap (i + 2) :=
        hmono (i + 1) (i + 2) (by omega) (by omega) hi2
      have hltd : dmap (i + 1) < dmap (i + 2) := lt_of_le_of_ne hle hpd
      have hzero : cntFrom dmap N (dmap (i + 1)) (i + 2) = 0 := by
        apply cntFrom_zero
        intro m hm1 hm2
        have := hmono (i + 2) m (by omega) hm1 hm2
        omega
      have hminIdx : minIdx dmap N (dmap (i + 2)) = i + 2 := by
        apply minIdx_eq dmap N (dmap (i + 2)) (i + 2) (by omega) hi2 rfl
        intro m hm1 hm2
        have := hmono m (i + 1) hm1 (by omega) (by omega)
        omega
      rw [stepAt_boundary fetch sf s (i + 1) (dmap (i + 2))
        (cntFrom dmap N (dmap (i + 2)) (i + 2)) (dmap (i + 1)) hcd hdccd hfetch
        hpd (hsf s.saves)]
      refine ⟨rfl, fun hEq => absurd hEq (by omega), fun _ => ⟨rfl, ?_, ?_⟩⟩
      · intro d
        show (if d = dmap (i + 1) then some 1 else s.dc d) = _
        by_cases hd : d = dmap (i + 1)
        · subst hd
          rw [if_pos rfl]
          have hc1 : cntFrom dmap N (dmap (i + 1)) (i + 1) = 1 := by
            rw [cntFrom_succ dmap N (dmap (i + 1)) (i + 1) (by omega), if_pos rfl,
              hzero]
          rw [hc1]
          simp
        · rw [if_neg hd, hdc d]
          have hne : dmap (i + 1) ≠ d := fun hh => hd hh.symm
          have hshift : cntFrom dmap N d (i + 1) = cntFrom dmap N d (i + 2) := by
            rw [cntFrom_succ dmap N d (i + 1) (by omega), if_neg hne, Nat.zero_add]
          rw [hshift]
      · intro d
        show (s.sheet ++
            [(⟨dmap (i + 2), cntFrom dmap N (dmap (i + 2)) (i + 2), i + 2⟩ :
              TallyRow)]).filter (fun r => r.rdate = d) = _
        rw [← hfs, List.filter_append]
        by_cases hd2 : d = dmap (i + 2)
        · subst hd2
          rw [hfile (dmap (i + 2)), if_neg (by simp)]
          have hshift2 : cntFrom dmap N (dmap (i + 2)) (i + 1) =
              cntFrom dmap N (dmap (i + 2)) (i + 2) := by
            rw [cntFrom_succ dmap N (dmap (i + 2)) (i + 1) (by omega), if_neg hpd,
              Nat.zero_add]
          rw [hshift2, hminIdx,
            if_pos ⟨fun hh => hpd hh.symm, hcnt2pos⟩]
          simp [List.filter]
        · by_cases hd1 : d = dmap (i + 1)
          · subst hd1
            rw [hfile (dmap (i + 1)), if_neg (by simp [hzero]),
              if_neg (by simp)]
            have hrow : (dmap (i + 2) = dmap (i + 1)) = False :=
              eq_false (fun hh => hpd hh.symm)
            simp [List.filter, hrow]
          · have hne1 : dmap (i + 1) ≠ d := fun hh => hd1 hh.symm
            have hshift3 : cntFrom dmap N d (i + 1) = cntFrom dmap N d (i + 2) := by
              rw [cntFrom_succ dmap N d (i + 1) (by omega), if_neg hne1,
                Nat.zero_add]
            rw [hfile d, hshift3]
            have hrow : (dmap (i + 2) = d) = False :=
              eq_false (fun hh => hd2 hh.symm)
            simp [List.filter, hrow, hd1, hd2]

lemma Inv1_run (dmap : Nat → Nat) (N : Nat) (fetch : Nat → Option Nat)
    (sf : Nat → Bool) (hf : ∀ m, 1 ≤ m → m ≤ N → fetch m = some (dmap m))
    (hmono : ∀ a b, 1 ≤ a → a ≤ b → b ≤ N → dmap a ≤ dmap b)
    (hsf : ∀ n, sf n = false) :
    ∀ (i : Nat) (s : CState), i ≤ N → Inv1 dmap N i s →
      Inv1 dmap N 0 (runLoop fetch sf s i) := by
  intro i
  induction i with
  | zero => exact fun s _ h => h
  | succ n ih =>
    intro s hle h
    exact ih (stepAt fetch sf s (n + 1)) (by omega)
      (Inv1_step dmap N fetch sf hf hmono hsf n (by omega) s h)

lemma Inv1_init (dmap : Nat → Nat) (N : Nat) : Inv1 dmap N N initState :=
  ⟨rfl, fun _ => ⟨rfl, fun _ => rfl, rfl⟩, fun hlt => absurd hlt (lt_irrefl N)⟩

/-- Claim C1: a fresh start-to-finish run over a synthetic archive with
indices `1..N` (newest index `N`, no prior progress table, every fetch and
save succeeding), whose dates `dmap` are non-increasing as the index
decreases, appends exactly one row per distinct date: for every date `d`,
the appended rows with date `d` are exactly one row whose count is the
number of indices in `[1, N]` mapped to `d` and whose `earliest_index` is the
minimum index mapped to `d` — and no row at all when no index maps to `d`.
The run completes normally. -/
theorem crawl_fresh_histogram (e : Env) (dmap : Nat → Nat)
    (hfe : e.fileExists = false) (hl : e.loginOk = true) (hn : e.newestOk = true)
    (hf : ∀ m, 1 ≤ m → m ≤ e.newestIndex → e.fetch m = some (dmap m))
    (hmono : ∀ a b, 1 ≤ a → a ≤ b → b ≤ e.newestIndex → dmap a ≤ dmap b)
    (hsf : ∀ n, e.saveFails n = false) :
    (crawl e).outcome = true ∧
    ∀ d, (crawl e).appended.filter (fun r => r.rdate = d) =
      if 0 < cntFrom dmap e.newestIndex d 1
      then [⟨d, cntFrom dmap e.newestIndex d 1, minIdx dmap e.newestIndex d⟩]
      else [] := by
  have hstart : startIndex e = e.newestIndex := startIndex_fresh e hfe
  have hinv : Inv1 dmap e.newestIndex 0
      (runLoop e.fetch e.saveFails initState e.newestIndex) :=
    Inv1_run dmap e.newestIndex e.fetch e.saveFails hf hmono hsf e.newestIndex
      initState (le_refl _) (Inv1_init dmap e.newestIndex)
  obtain ⟨hfs, hN0, hlt0⟩ := hinv
  by_cases hN : e.newestIndex = 0
  · obtain ⟨hcd, hdc, hfile⟩ := hN0 hN.symm
    have hfin := finish_none e.saveFails
      (runLoop e.fetch e.saveFails initState e.newestIndex) hcd
    constructor
    · unfold crawl
      simp [hl, hn, hstart, hfin, isOkB]
    · intro d
      have happ : (crawl e).appended =
          (runLoop e.fetch e.saveFails initState e.newestIndex).file := by
        unfold crawl
        simp [hl, hn, hstart, hfin, exState]
      have hz : cntFrom dmap e.newestIndex d 1 = 0 := by
        rw [hN]
        rfl
      rw [happ, hfile, hz, if_neg (by omega)]
      rfl
  · have h0N : 0 < e.newestIndex := by omega
    obtain ⟨hcd, hdc, hfile⟩ := hlt0 h0N
    simp only [Nat.zero_add] at hcd hdc hfile
    have hpos1 : 0 < cntFrom dmap e.newestIndex (dmap 1) 1 :=
      cntFrom_pos dmap e.newestIndex (dmap 1) 1 h0N rfl
    have hdc1 : (runLoop e.fetch e.saveFails initState e.newestIndex).dc (dmap 1) =
        some (cntFrom dmap e.newestIndex (dmap 1) 1) := by
      rw [hdc (dmap 1), if_pos hpos1]
    have hfin := finish_some_ok e.saveFails
      (runLoop e.fetch e.saveFails initState e.newestIndex) (dmap 1)
      (cntFrom dmap e.newestIndex (dmap 1) 1) hcd hdc1 (hsf _)
    have hmin1 : minIdx dmap e.newestIndex (dmap 1) = 1 :=
      minIdx_eq dmap e.newestIndex (dmap 1) 1 (le_refl 1) h0N rfl
        (fun m hm1 hm2 => absurd hm2 (by omega))
    constructor
    · unfold crawl
      simp [hl, hn, hstart, hfin, isOkB]
    · intro d
      have happ : (crawl e).appended =
          (runLoop e.fetch e.saveFails initState e.newestIndex).sheet ++
            [⟨dmap 1, cntFrom dmap e.newestIndex (dmap 1) 1, 1⟩] := by
        unfold crawl
        simp [hl, hn, hstart, hfin, exState]
      rw [happ, ← hfs, List.filter_append]
      by_cases hd : d = dmap 1
      · subst hd
        rw [hfile (dmap 1), if_neg (by simp), if_pos hpos1]
        simp [List.filter, hmin1]
      · rw [hfile d]
        have hrow : (dmap 1 = d) = False := eq_false (fun hh => hd hh.symm)
        simp [List.filter, hrow, hd]

/-- Witness for `crawl_fresh_histogram` on `envHist`: date 5 is carried by
indices 2 and 1, so its row is `(5, 2, 1)`. -/
theorem crawl_fresh_histogram_witness :
    (crawl envHist).outcome = true ∧
    (crawl envHist).appended.filter (fun r => r.rdate = 5) = [⟨5, 2, 1⟩] := by
  have h := crawl_fresh_histogram envHist dmapW rfl rfl rfl
    (fun m h1 h2 => by
      have h3 : m ≤ 3 := h2
      interval_cases m <;> rfl)
    (fun a b h1 h2 h3 => by
      simp only [dmapW]
      split_ifs <;> omega)
    (fun n => rfl)
  refine ⟨h.1, ?_⟩
  rw [h.2 5]
  rfl

/-- Witness for `single_failure_undercount` on `envHist` with the fetch at
index 2 (a date-5 index) failing: the persisted tally for date 5 drops from
2 to 1. -/
theorem single_failure_undercount_witness :
    (crawl (failAt envHist 2)).outcome = true ∧
    sumCount (crawl envHist).appended 5 =
      sumCount (crawl (failAt envHist 2)).appended 5 + 1 := by
  have h := single_failure_undercount envHist 2 dmapW rfl rfl rfl (by decide)
    (by decide)
    (fun m h1 h2 => by
      have h3 : m ≤ 3 := h2
      interval_cases m <;> rfl)
    (fun n => rfl)
  exact ⟨h.1, h.2.1⟩

/-- Witness for `all_fetches_fail_no_rows` on `envNoSucc`. -/
theorem all_fetches_fail_no_rows_witness :
    (crawl envNoSucc).outcome = true ∧ (crawl envNoSucc).appended = [] := by
  have h := all_fetches_fail_no_rows envNoSucc rfl rfl (fun m h1 h2 => rfl)
  exact ⟨h.1, h.2.1⟩

end PttCrawl
